import Mathlib

/-!
Verification development for the Commodity Trend Scanner.

The definitions below are a shallow embedding of `src/commodity_scanner.py`:
the EMA crossover detector (`check_ema_crossover`), the per-cycle scan logic
(`scan_commodities` and its pieces), and the persisted trend state.

Modelling conventions:
* close prices are rationals;
* timestamps are whole minutes (integers) on a common clock — the Python code
  compares fractional minutes with the same `>=` test, and no claim depends on
  sub-minute resolution;
* a raised Python exception (dict `KeyError`, `list.index` `ValueError`) is
  modelled as `none` in an `Option` result: the exception propagates out of
  `scan_commodities`, so `save_state` never runs and alerts are not sent;
* the market data provider (`analyze_commodity`, which wraps the network fetch
  and returns a direction or `None`) is an oracle `String → Option Direction`
  giving the detection result per timeframe.
-/

namespace CommodityScanner

/-- Trend direction returned by the detector ("bullish" / "bearish"). -/
inductive Direction
  | bullish
  | bearish
deriving DecidableEq

/-- One persisted trend record, as stored in `commodity_state.json` under the
key `"{symbol}_{direction}"` (the direction lives in the key, not the value). -/
structure TrendRecord where
  first_detected : ℤ
  max_timeframe : String
  trend_strength : ℕ
  last_updated : ℤ
deriving DecidableEq

/-- The slice of the state dict belonging to one instrument: the optional
record under the `_bullish` key and the one under the `_bearish` key. -/
structure InstState where
  bull : Option TrendRecord
  bear : Option TrendRecord
deriving DecidableEq

/-- The three alert shapes produced by `scan_commodities` (the f-strings at
lines 266, 287 and 301 of the source), keeping exactly the data interpolated
into each message. In the `faded` message the direction is recovered from the
state key (`active_trend_key.split` at line 300), i.e. it is the direction of
the stored record, while `progressing` interpolates the freshly detected
direction. -/
inductive Alert
  | newCrossover (dir : Direction) (name tf : String)
  | progressing (name : String) (dir : Direction) (tf : String)
  | faded (name : String) (dir : Direction) (tf : String)
deriving DecidableEq

/-- One entry of `config["commodities"]`. -/
structure Commodity where
  symbol : String
  name : String

/-- The configuration fields `scan_commodities` reads, plus the module-level
wait matrix `TIMEFRAME_WAIT_MINUTES` (modelled as a total function into
`Option` so that nested `dict.get` with a default becomes `Option.getD`). -/
structure Config where
  commodities : List Commodity
  timeframes : List String
  waitMatrix : String → String → Option ℤ

/-- `TIMEFRAME_WAIT_MINUTES` from the top of the source file. -/
def TIMEFRAME_WAIT_MINUTES (a b : String) : Option ℤ :=
  if a = "5m" ∧ b = "15m" then some 10
  else if a = "15m" ∧ b = "30m" then some 15
  else if a = "30m" ∧ b = "1h" then some 30
  else none

/-- The built-in default configuration returned by `load_config` when the
config file is missing. -/
def defaultConfig : Config where
  commodities :=
    [⟨"GC=F", "Gold"⟩, ⟨"SI=F", "Silver"⟩, ⟨"NG=F", "Natural Gas"⟩,
     ⟨"CL=F", "Crude Oil"⟩]
  timeframes := ["5m", "10m", "15m", "30m", "1h"]
  waitMatrix := TIMEFRAME_WAIT_MINUTES

/-! ## EMA crossover detector (`check_ema_crossover`, lines 127-159) -/

/-- Recursive EMA continuation: given smoothing factor `a` and the EMA value
`e` of the previous bar, produce the EMA series of the remaining closes
(`ema[i] = a*x[i] + (1-a)*ema[i-1]`, pandas `ewm(span, adjust=False)`). -/
def ewmFrom (a e : ℚ) : List ℚ → List ℚ
  | [] => []
  | x :: xs =>
    let e2 := a * x + (1 - a) * e
    e2 :: ewmFrom a e2 xs

/-- EMA series of a close series with the given span: seeded by the first
value, smoothing factor `2/(span+1)`. -/
def ewm (span : ℕ) : List ℚ → List ℚ
  | [] => []
  | x :: xs => x :: ewmFrom (2 / (span + 1)) x xs

/-- The current-bar EMA value (`iloc[-1]`). -/
def emaCurr (span : ℕ) (closes : List ℚ) : ℚ :=
  (ewm span closes).getLastD 0

/-- The previous-bar EMA value (`iloc[-2]`). -/
def emaPrev (span : ℕ) (closes : List ℚ) : ℚ :=
  (ewm span closes).dropLast.getLastD 0

/-- `check_ema_crossover(df, ema_fast, ema_slow)`: `None` when fewer than
`ema_slow + 1` closes; the second length guard models the `iloc[-2]`
IndexError being caught by the surrounding `try/except` (which returns
`None`); otherwise classify by the previous-bar vs current-bar EMA pair. -/
def check_ema_crossover (closes : List ℚ) (ema_fast ema_slow : ℕ) :
    Option Direction :=
  if closes.length < ema_slow + 1 then none
  else if closes.length < 2 then none
  else if emaPrev ema_fast closes ≤ emaPrev ema_slow closes ∧
          emaCurr ema_slow closes < emaCurr ema_fast closes then
    some Direction.bullish
  else if emaPrev ema_slow closes ≤ emaPrev ema_fast closes ∧
          emaCurr ema_fast closes < emaCurr ema_slow closes then
    some Direction.bearish
  else none

/-! ## Per-instrument scan (`scan_commodities` body, lines 208-306) -/

/-- Accessing the state dict at key `"{symbol}_{direction}"`, instrument part
fixed. -/
def getRecord (s : InstState) : Direction → Option TrendRecord
  | Direction.bullish => s.bull
  | Direction.bearish => s.bear

/-- Writing (or, with `none`, deleting) the state dict entry at key
`"{symbol}_{direction}"`, instrument part fixed. -/
def setRecord (s : InstState) : Direction → Option TrendRecord → InstState
  | Direction.bullish, v => { s with bull := v }
  | Direction.bearish, v => { s with bear := v }

/-- Lines 218-224: the first existing record among the `bullish` and
`bearish` keys, in that loop order. -/
def activeTrend (s : InstState) : Option (Direction × TrendRecord) :=
  match s.bull with
  | some r => some (Direction.bullish, r)
  | none =>
    match s.bear with
    | some r => some (Direction.bearish, r)
    | none => none

/-- Python `list.index`, returning `none` where Python raises `ValueError`. -/
def listIndex : List String → String → Option ℕ
  | [], _ => none
  | b :: l, a => if b = a then some 0 else (listIndex l a).map (· + 1)

/-- Lines 226-256: the list `timeframes_to_scan` decided for one instrument.
`none` models the `ValueError` when the stored `max_timeframe` is not in the
configured timeframe list. -/
def timeframesToScan (cfg : Config) (now : ℤ) (s : InstState) :
    Option (List String) :=
  match activeTrend s with
  | none => some ["5m"]
  | some (_, r) =>
    match listIndex cfg.timeframes r.max_timeframe with
    | none => none
    | some current_index =>
      if current_index < cfg.timeframes.length - 1 then
        let next_tf := cfg.timeframes.getD (current_index + 1) ""
        let time_passed := now - r.first_detected
        let wait_minutes :=
          (cfg.waitMatrix r.max_timeframe next_tf).getD 10
        if time_passed ≥ wait_minutes then
          some [r.max_timeframe, next_tf]
        else
          some [r.max_timeframe]
      else
        some [r.max_timeframe]

/-- Lines 263-306: the body of `for timeframe in timeframes_to_scan` for one
timeframe, given the detection result `trend` for that timeframe.  `active`
is the snapshot `(active_trend_key, active_trend_data)` taken before the
loop; `s` is the live state.  A `none` result models a raised exception
(`ValueError` from `list.index`, or `KeyError` when the record at
`active_trend_key` was already deleted earlier in the loop). -/
def applyTimeframe (cfg : Config) (name : String) (now : ℤ)
    (active : Option (Direction × TrendRecord)) (tf : String)
    (trend : Option Direction) (s : InstState) (alerts : List Alert) :
    Option (InstState × List Alert) :=
  match trend with
  | none => some (s, alerts)
  | some t =>
    match active with
    | none =>
      some (setRecord s t (some ⟨now, tf, 1, now⟩),
            alerts ++ [Alert.newCrossover t name tf])
    | some (adir, adata) =>
      match listIndex cfg.timeframes adata.max_timeframe,
            listIndex cfg.timeframes tf with
      | some current_index, some new_index =>
        if current_index < new_index then
          match getRecord s adir with
          | none => none
          | some r =>
            some (setRecord s adir
                    (some { r with max_timeframe := tf, last_updated := now }),
                  alerts ++ [Alert.progressing name t tf])
        else
          if tf = adata.max_timeframe then
            match getRecord s adir with
            | none => none
            | some _ =>
              some (setRecord s adir none,
                    alerts ++ [Alert.faded name adir tf])
          else
            some (s, alerts)
      | _, _ => none

/-- The loop of lines 259-306 over `timeframes_to_scan`, calling the market
data oracle once per timeframe. -/
def runTimeframes (cfg : Config) (name : String) (now : ℤ)
    (active : Option (Direction × TrendRecord))
    (detect : String → Option Direction) :
    List String → InstState → List Alert → Option (InstState × List Alert)
  | [], s, alerts => some (s, alerts)
  | tf :: rest, s, alerts =>
    match applyTimeframe cfg name now active tf (detect tf) s alerts with
    | none => none
    | some (s2, alerts2) => runTimeframes cfg name now active detect rest s2 alerts2

/-- One iteration of the commodity loop (lines 208-306): decision step, then
the apply loop.  Also returns the timeframe list that was fetched from the
market data provider. -/
def scanInstrument (cfg : Config) (detect : String → Option Direction)
    (now : ℤ) (name : String) (s : InstState) :
    Option (InstState × List Alert × List String) :=
  match timeframesToScan cfg now s with
  | none => none
  | some tfs =>
    match runTimeframes cfg name now (activeTrend s) detect tfs s [] with
    | none => none
    | some (s2, alerts) => some (s2, alerts, tfs)

/-! ## Whole-cycle scan over the persisted store -/

/-- The persisted state dict, instrument part of the key curried away. -/
def Store : Type := String → InstState

/-- The empty state file created by `initialize_files`. -/
def emptyStore : Store := fun _ => ⟨none, none⟩

/-- Reading the store at key `"{sym}_{d}"`. -/
def lookupStore (st : Store) (sym : String) (d : Direction) :
    Option TrendRecord :=
  getRecord (st sym) d

/-- Replacing the slice of the store belonging to one instrument. -/
def updateStore (st : Store) (sym : String) (s : InstState) : Store :=
  fun x => if x = sym then s else st x

/-- The `for commodity in config['commodities']` loop, threading the state
dict, the accumulated alert list, and the log of `(symbol, timeframe)` market
data fetches. -/
def scanCommodityList (cfg : Config)
    (detect : String → String → Option Direction) (now : ℤ) :
    List Commodity → Store → List Alert → List (String × String) →
    Option (List Alert × List (String × String) × Store)
  | [], st, alerts, fetches => some (alerts, fetches, st)
  | c :: rest, st, alerts, fetches =>
    match scanInstrument cfg (detect c.symbol) now c.name (st c.symbol) with
    | none => none
    | some (s2, newAlerts, tfs) =>
      scanCommodityList cfg detect now rest (updateStore st c.symbol s2)
        (alerts ++ newAlerts) (fetches ++ tfs.map (fun tf => (c.symbol, tf)))

/-- `scan_commodities` (lines 192-322): when the market is closed it returns
an empty alert list immediately, fetching nothing and leaving the state
untouched; otherwise it runs the commodity loop.  The result carries the
alerts, the fetch log, and the state that `save_state` persists; `none`
models an uncaught exception (in which case nothing is persisted). -/
def scan_commodities (cfg : Config)
    (detect : String → String → Option Direction) (now : ℤ)
    (is_active : Bool) (st : Store) :
    Option (List Alert × List (String × String) × Store) :=
  if is_active then scanCommodityList cfg detect now cfg.commodities st [] []
  else some ([], [], st)

/-- The inputs of one scheduler iteration: the tradability flag, the market
data oracle, and the current wall-clock minute. -/
structure CycleInput where
  is_active : Bool
  detect : String → String → Option Direction
  now : ℤ

/-- The persisted store after one scheduler iteration: on a normal run the
state passed to `save_state`, on an exception the untouched previous file
(the in-memory mutations are lost, `save_state` is never reached). -/
def runCycle (cfg : Config) (inp : CycleInput) (st : Store) : Store :=
  match scan_commodities cfg inp.detect inp.now inp.is_active st with
  | some (_, _, st2) => st2
  | none => st

/-- The persisted store after a sequence of scheduler iterations. -/
def runTrace (cfg : Config) : List CycleInput → Store → Store
  | [], st => st
  | inp :: rest, st => runTrace cfg rest (runCycle cfg inp st)

/-! ## Record invariants -/

/-- All records of one instrument state satisfy `P`. -/
def InstPInv (P : TrendRecord → Prop) (s : InstState) : Prop :=
  ∀ d r, getRecord s d = some r → P r

/-- All records of the store satisfy `P`. -/
def StorePInv (P : TrendRecord → Prop) (st : Store) : Prop :=
  ∀ sym d r, lookupStore st sym d = some r → P r

/-- Every stored record's `max_timeframe` is an element of the configured
timeframe sequence. -/
def StoreTFInv (cfg : Config) (st : Store) : Prop :=
  StorePInv (fun r => r.max_timeframe ∈ cfg.timeframes) st

/-! ## Concrete fixtures used by the claim theorems and witnesses -/

/-- A bullish record confirmed up to `15m`, first detected at minute 0. -/
def rec15 : TrendRecord := ⟨0, "15m", 1, 0⟩

/-- Instrument state holding only the bullish record `rec15`. -/
def s15 : InstState := ⟨some rec15, none⟩

/-- A bullish record confirmed up to `5m`, first detected at minute 0. -/
def rec5 : TrendRecord := ⟨0, "5m", 1, 0⟩

/-- A configuration whose timeframe ladder does not start at `5m`. -/
def seqCfg : Config where
  commodities := [⟨"GC=F", "Gold"⟩]
  timeframes := ["15m", "30m", "1h"]
  waitMatrix := TIMEFRAME_WAIT_MINUTES

/-- A store holding one bullish gold record at `15m`. -/
def w9store : Store := updateStore emptyStore "GC=F" s15

/-- A cycle at minute 16 whose market data confirms every instrument bullish
on `30m` and detects nothing elsewhere. -/
def w9inp : CycleInput :=
  ⟨true, fun _ tf => if tf = "30m" then some Direction.bullish else none, 16⟩

/-- A cycle at minute 7 detecting a fresh bullish crossover for gold on
`5m` and nothing else. -/
def w10inp : CycleInput :=
  ⟨true,
   fun sym tf =>
     if sym = "GC=F" ∧ tf = "5m" then some Direction.bullish else none,
   7⟩

/-- A cycle at minute 0 whose market data reports a bullish crossover on the
`5m` probe for every instrument and nothing elsewhere. -/
def probeInp : CycleInput :=
  ⟨true, fun _ tf => if tf = "5m" then some Direction.bullish else none, 0⟩

/-! ## Basic lemmas -/

lemma listIndex_mem {l : List String} {a : String} {i : ℕ}
    (h : listIndex l a = some i) : a ∈ l := by
  induction l generalizing i with
  | nil => simp [listIndex] at h
  | cons b l ih =>
    by_cases hb : b = a
    · subst hb; exact List.mem_cons_self b l
    · simp only [listIndex, if_neg hb] at h
      cases hj : listIndex l a with
      | none => rw [hj] at h; simp at h
      | some j => exact List.mem_cons_of_mem _ (ih hj)

lemma listIndex_inj {l : List String} {a : String} {i j : ℕ}
    (h1 : listIndex l a = some i) (h2 : listIndex l a = some j) : i = j := by
  rw [h1] at h2; exact (Option.some.injEq _ _).mp h2

lemma getD_mem : ∀ (l : List String) (n : ℕ), n < l.length → ∀ d, l.getD n d ∈ l
  | b :: l, 0, _, d => by simp
  | b :: l, n + 1, h, d => by
    simp only [List.getD_cons_succ]
    exact List.mem_cons_of_mem _ (getD_mem l n (by simpa using h) d)

lemma getRecord_setRecord_same (s : InstState) (d : Direction)
    (v : Option TrendRecord) : getRecord (setRecord s d v) d = v := by
  cases d <;> rfl

lemma getRecord_setRecord_other (s : InstState) {d d2 : Direction}
    (v : Option TrendRecord) (h : d ≠ d2) :
    getRecord (setRecord s d v) d2 = getRecord s d2 := by
  cases d <;> cases d2 <;> first | rfl | exact absurd rfl h

lemma getRecord_activeTrend {s : InstState} {d : Direction} {r : TrendRecord}
    (h : activeTrend s = some (d, r)) : getRecord s d = some r := by
  unfold activeTrend at h
  cases hb : s.bull with
  | some rb =>
    rw [hb] at h
    simp only [Option.some.injEq, Prod.mk.injEq] at h
    obtain ⟨hd, hr⟩ := h
    subst hd; subst hr
    simpa [getRecord] using hb
  | none =>
    rw [hb] at h
    cases hc : s.bear with
    | some rc =>
      rw [hc] at h
      simp only [Option.some.injEq, Prod.mk.injEq] at h
      obtain ⟨hd, hr⟩ := h
      subst hd; subst hr
      simpa [getRecord] using hc
    | none => rw [hc] at h; simp at h

lemma activeTrend_none {s : InstState} (h : activeTrend s = none) :
    s.bull = none ∧ s.bear = none := by
  unfold activeTrend at h
  constructor
  · cases hb : s.bull with
    | some rb => rw [hb] at h; simp at h
    | none => rfl
  · cases hc : s.bear with
    | some rc =>
      cases hb : s.bull with
      | some rb => rw [hb] at h; simp at h
      | none => rw [hb, hc] at h; simp at h
    | none => rfl

/-- The two-timeframe decision outcome: an existing trend, not at the top of
the ladder, whose escalation wait has elapsed. -/
lemma timeframesToScan_both {cfg : Config} {now : ℤ} {s : InstState}
    {d : Direction} {r : TrendRecord} {i : ℕ}
    (hact : activeTrend s = some (d, r))
    (hidx : listIndex cfg.timeframes r.max_timeframe = some i)
    (hlt : i < cfg.timeframes.length - 1)
    (hw : now - r.first_detected ≥
      (cfg.waitMatrix r.max_timeframe (cfg.timeframes.getD (i + 1) "")).getD 10) :
    timeframesToScan cfg now s =
      some [r.max_timeframe, cfg.timeframes.getD (i + 1) ""] := by
  simp only [timeframesToScan, hact, hidx]
  rw [if_pos hlt, if_pos hw]

/-- The one-timeframe decision outcome: the escalation wait has not elapsed. -/
lemma timeframesToScan_current {cfg : Config} {now : ℤ} {s : InstState}
    {d : Direction} {r : TrendRecord} {i : ℕ}
    (hact : activeTrend s = some (d, r))
    (hidx : listIndex cfg.timeframes r.max_timeframe = some i)
    (hlt : i < cfg.timeframes.length - 1)
    (hw : now - r.first_detected <
      (cfg.waitMatrix r.max_timeframe (cfg.timeframes.getD (i + 1) "")).getD 10) :
    timeframesToScan cfg now s = some [r.max_timeframe] := by
  simp only [timeframesToScan, hact, hidx]
  rw [if_pos hlt, if_neg (not_le.mpr hw)]

/-- Every timeframe the decision step selects is either the hard-coded `5m`
probe or an element of the configured sequence. -/
lemma timeframesToScan_subset {cfg : Config} {now : ℤ} {s : InstState}
    {tfs : List String} (h : timeframesToScan cfg now s = some tfs) :
    ∀ tf ∈ tfs, tf = "5m" ∨ tf ∈ cfg.timeframes := by
  unfold timeframesToScan at h
  cases hact : activeTrend s with
  | none =>
    rw [hact] at h
    obtain rfl := (Option.some.injEq _ _).mp h
    intro tf htf
    left
    simpa using htf
  | some pair =>
    obtain ⟨d, r⟩ := pair
    simp only [hact] at h
    cases hci : listIndex cfg.timeframes r.max_timeframe with
    | none => rw [hci] at h; exact Option.noConfusion h
    | some i =>
      simp only [hci] at h
      have hmemT : r.max_timeframe ∈ cfg.timeframes := listIndex_mem hci
      by_cases hlt : i < cfg.timeframes.length - 1
      · rw [if_pos hlt] at h
        have hmemN : cfg.timeframes.getD (i + 1) "" ∈ cfg.timeframes :=
          getD_mem _ _ (by omega) ""
        by_cases hw : now - r.first_detected ≥
            (cfg.waitMatrix r.max_timeframe
              (cfg.timeframes.getD (i + 1) "")).getD 10
        · rw [if_pos hw] at h
          obtain rfl := (Option.some.injEq _ _).mp h
          intro tf htf
          simp only [List.mem_cons, List.not_mem_nil, or_false] at htf
          rcases htf with rfl | rfl
          · exact Or.inr hmemT
          · exact Or.inr hmemN
        · rw [if_neg hw] at h
          obtain rfl := (Option.some.injEq _ _).mp h
          intro tf htf
          simp only [List.mem_singleton] at htf
          subst htf
          exact Or.inr hmemT
      · rw [if_neg hlt] at h
        obtain rfl := (Option.some.injEq _ _).mp h
        intro tf htf
        simp only [List.mem_singleton] at htf
        subst htf
        exact Or.inr hmemT

/-- Writing one key of an instrument state preserves a record invariant when
the written value satisfies it. -/
lemma InstPInv_set {P : TrendRecord → Prop} {s : InstState}
    (hs : InstPInv P s) {d : Direction} {v : Option TrendRecord}
    (hv : ∀ r, v = some r → P r) : InstPInv P (setRecord s d v) := by
  intro d2 r2 h2
  by_cases hd : d = d2
  · subst hd; rw [getRecord_setRecord_same] at h2; exact hv _ h2
  · rw [getRecord_setRecord_other _ _ hd] at h2; exact hs _ _ h2

/-- One iteration of the apply loop preserves a record invariant that is
closed under record creation and escalation at the scanned timeframe. -/
lemma applyTimeframe_preserves (P : TrendRecord → Prop) (cfg : Config)
    (name : String) (now : ℤ) (active : Option (Direction × TrendRecord))
    (tf : String) (trend : Option Direction) (s : InstState)
    (alerts : List Alert) (s2 : InstState) (alerts2 : List Alert)
    (hnew : P ⟨now, tf, 1, now⟩)
    (hupd : ∀ r, P r → P { r with max_timeframe := tf, last_updated := now })
    (hs : InstPInv P s)
    (h : applyTimeframe cfg name now active tf trend s alerts =
      some (s2, alerts2)) :
    InstPInv P s2 := by
  cases trend with
  | none =>
    simp only [applyTimeframe, Option.some.injEq, Prod.mk.injEq] at h
    obtain ⟨h1, -⟩ := h
    subst h1
    exact hs
  | some t =>
    cases active with
    | none =>
      simp only [applyTimeframe, Option.some.injEq, Prod.mk.injEq] at h
      obtain ⟨h1, -⟩ := h
      subst h1
      exact InstPInv_set hs (fun r hr => by
        obtain rfl := (Option.some.injEq _ _).mp hr
        exact hnew)
    | some pair =>
      obtain ⟨adir, adata⟩ := pair
      cases hci : listIndex cfg.timeframes adata.max_timeframe with
      | none =>
        simp only [applyTimeframe, hci] at h
        exact Option.noConfusion h
      | some ci =>
        cases hni : listIndex cfg.timeframes tf with
        | none =>
          simp only [applyTimeframe, hci, hni] at h
          exact Option.noConfusion h
        | some ni =>
          simp only [applyTimeframe, hci, hni] at h
          by_cases hlt : ci < ni
          · rw [if_pos hlt] at h
            cases hgr : getRecord s adir with
            | none => rw [hgr] at h; exact Option.noConfusion h
            | some rl =>
              simp only [hgr, Option.some.injEq, Prod.mk.injEq] at h
              obtain ⟨h1, -⟩ := h
              subst h1
              exact InstPInv_set hs (fun r hr => by
                obtain rfl := (Option.some.injEq _ _).mp hr
                exact hupd rl (hs adir rl hgr))
          · rw [if_neg hlt] at h
            by_cases htf : tf = adata.max_timeframe
            · rw [if_pos htf] at h
              cases hgr : getRecord s adir with
              | none => rw [hgr] at h; exact Option.noConfusion h
              | some rl =>
                simp only [hgr, Option.some.injEq, Prod.mk.injEq] at h
                obtain ⟨h1, -⟩ := h
                subst h1
                exact InstPInv_set hs (fun r hr => Option.noConfusion hr)
            · rw [if_neg htf] at h
              simp only [Option.some.injEq, Prod.mk.injEq] at h
              obtain ⟨h1, -⟩ := h
              subst h1
              exact hs

/-- The whole apply loop preserves a record invariant closed under creation
and escalation at each of the scanned timeframes. -/
lemma runTimeframes_preserves (P : TrendRecord → Prop) (cfg : Config)
    (name : String) (now : ℤ) (active : Option (Direction × TrendRecord))
    (detect : String → Option Direction) :
    ∀ (tfs : List String) (s : InstState) (alerts : List Alert)
      (s2 : InstState) (alerts2 : List Alert),
    (∀ tf ∈ tfs, P ⟨now, tf, 1, now⟩) →
    (∀ tf ∈ tfs, ∀ r, P r →
      P { r with max_timeframe := tf, last_updated := now }) →
    InstPInv P s →
    runTimeframes cfg name now active detect tfs s alerts =
      some (s2, alerts2) →
    InstPInv P s2
  | [], s, alerts, s2, alerts2, _, _, hs, h => by
    simp only [runTimeframes, Option.some.injEq, Prod.mk.injEq] at h
    obtain ⟨h1, -⟩ := h
    subst h1
    exact hs
  | tf :: rest, s, alerts, s2, alerts2, hnew, hupd, hs, h => by
    simp only [runTimeframes] at h
    cases hstep : applyTimeframe cfg name now active tf (detect tf) s alerts with
    | none => rw [hstep] at h; exact Option.noConfusion h
    | some out =>
      obtain ⟨s1, alerts1⟩ := out
      simp only [hstep] at h
      have hs1 := applyTimeframe_preserves P cfg name now active tf (detect tf)
        s alerts s1 alerts1 (hnew tf (by simp)) (hupd tf (by simp)) hs hstep
      exact runTimeframes_preserves P cfg name now active detect rest s1
        alerts1 s2 alerts2
        (fun x hx => hnew x (List.mem_cons_of_mem _ hx))
        (fun x hx => hupd x (List.mem_cons_of_mem _ hx)) hs1 h

/-- One commodity-loop iteration preserves a record invariant closed under
creation and escalation at `5m` and at every configured timeframe. -/
lemma scanInstrument_preserves (P : TrendRecord → Prop) (cfg : Config)
    (detect : String → Option Direction) (now : ℤ) (name : String)
    (s s2 : InstState) (alerts2 : List Alert) (tfs : List String)
    (hnew : ∀ tf, (tf = "5m" ∨ tf ∈ cfg.timeframes) → P ⟨now, tf, 1, now⟩)
    (hupd : ∀ tf, (tf = "5m" ∨ tf ∈ cfg.timeframes) → ∀ r, P r →
      P { r with max_timeframe := tf, last_updated := now })
    (hs : InstPInv P s)
    (h : scanInstrument cfg detect now name s = some (s2, alerts2, tfs)) :
    InstPInv P s2 := by
  unfold scanInstrument at h
  cases htts : timeframesToScan cfg now s with
  | none => rw [htts] at h; exact Option.noConfusion h
  | some l =>
    simp only [htts] at h
    cases hrun : runTimeframes cfg name now (activeTrend s) detect l s [] with
    | none => rw [hrun] at h; exact Option.noConfusion h
    | some out =>
      obtain ⟨s1, alerts1⟩ := out
      simp only [hrun, Option.some.injEq, Prod.mk.injEq] at h
      obtain ⟨h1, -⟩ := h
      subst h1
      exact runTimeframes_preserves P cfg name now (activeTrend s) detect l s
        [] s1 alerts1
        (fun x hx => hnew x (timeframesToScan_subset htts x hx))
        (fun x hx => hupd x (timeframesToScan_subset htts x hx)) hs hrun

/-- Replacing one instrument slice of a store preserves a store invariant
when the new slice satisfies the instrument invariant. -/
lemma StorePInv_update {P : TrendRecord → Prop} {st : Store}
    (h : StorePInv P st) {sym : String} {s : InstState}
    (hsI : InstPInv P s) : StorePInv P (updateStore st sym s) := by
  intro sy d r hr
  unfold lookupStore updateStore at hr
  by_cases he : sy = sym
  · rw [if_pos he] at hr; exact hsI d r hr
  · rw [if_neg he] at hr; exact h sy d r hr

/-- A store invariant is restricted by every instrument slice. -/
lemma StorePInv_slice {P : TrendRecord → Prop} {st : Store}
    (h : StorePInv P st) (sym : String) : InstPInv P (st sym) :=
  fun d r hr => h sym d r hr

/-- The commodity loop preserves a suitable store invariant. -/
lemma scanCommodityList_preserves (P : TrendRecord → Prop) (cfg : Config)
    (detect : String → String → Option Direction) (now : ℤ)
    (hnew : ∀ tf, (tf = "5m" ∨ tf ∈ cfg.timeframes) → P ⟨now, tf, 1, now⟩)
    (hupd : ∀ tf, (tf = "5m" ∨ tf ∈ cfg.timeframes) → ∀ r, P r →
      P { r with max_timeframe := tf, last_updated := now }) :
    ∀ (cs : List Commodity) (st : Store) (alerts : List Alert)
      (fetches : List (String × String))
      (out : List Alert × List (String × String) × Store),
    StorePInv P st →
    scanCommodityList cfg detect now cs st alerts fetches = some out →
    StorePInv P out.2.2
  | [], st, alerts, fetches, out, h0, h => by
    simp only [scanCommodityList, Option.some.injEq] at h
    subst h
    exact h0
  | c :: rest, st, alerts, fetches, out, h0, h => by
    simp only [scanCommodityList] at h
    cases hsi : scanInstrument cfg (detect c.symbol) now c.name
        (st c.symbol) with
    | none => rw [hsi] at h; exact Option.noConfusion h
    | some trip =>
      obtain ⟨s2, na, tfsc⟩ := trip
      simp only [hsi] at h
      have hinst := scanInstrument_preserves P cfg (detect c.symbol) now
        c.name (st c.symbol) s2 na tfsc hnew hupd (StorePInv_slice h0 _) hsi
      exact scanCommodityList_preserves P cfg detect now hnew hupd rest
        (updateStore st c.symbol s2) (alerts ++ na)
        (fetches ++ tfsc.map (fun tf => (c.symbol, tf))) out
        (StorePInv_update h0 hinst) h

/-- One scheduler iteration preserves a suitable store invariant. -/
lemma runCycle_preserves (P : TrendRecord → Prop) (cfg : Config)
    (inp : CycleInput) (st : Store)
    (hnew : ∀ (now : ℤ) (tf : String), (tf = "5m" ∨ tf ∈ cfg.timeframes) →
      P ⟨now, tf, 1, now⟩)
    (hupd : ∀ (now : ℤ) (tf : String), (tf = "5m" ∨ tf ∈ cfg.timeframes) →
      ∀ r, P r → P { r with max_timeframe := tf, last_updated := now })
    (h0 : StorePInv P st) : StorePInv P (runCycle cfg inp st) := by
  unfold runCycle scan_commodities
  cases hA : inp.is_active with
  | false => simpa using h0
  | true =>
    simp only [if_true]
    cases hsc : scanCommodityList cfg inp.detect inp.now cfg.commodities
        st [] [] with
    | none => simpa [hsc] using h0
    | some out =>
      simp only [hsc]
      exact scanCommodityList_preserves P cfg inp.detect inp.now
        (hnew inp.now) (hupd inp.now) cfg.commodities st [] [] out h0 hsc

/-- Any sequence of scheduler iterations preserves a suitable store
invariant. -/
lemma runTrace_preserves (P : TrendRecord → Prop) (cfg : Config)
    (hnew : ∀ (now : ℤ) (tf : String), (tf = "5m" ∨ tf ∈ cfg.timeframes) →
      P ⟨now, tf, 1, now⟩)
    (hupd : ∀ (now : ℤ) (tf : String), (tf = "5m" ∨ tf ∈ cfg.timeframes) →
      ∀ r, P r → P { r with max_timeframe := tf, last_updated := now }) :
    ∀ (inps : List CycleInput) (st : Store), StorePInv P st →
    StorePInv P (runTrace cfg inps st)
  | [], _, h0 => h0
  | inp :: rest, st, h0 =>
    runTrace_preserves P cfg hnew hupd rest (runCycle cfg inp st)
      (runCycle_preserves P cfg inp st hnew hupd h0)

/-! ## Monotonicity of max_timeframe -/

/-- One apply-loop iteration at the snapshot record's own `max_timeframe`
either leaves the instrument state unchanged (no detection) or deletes the
record at the snapshot key (a detection routed into the fade branch). -/
lemma applyTimeframe_at_max (cfg : Config) (name : String) (now : ℤ)
    (adir : Direction) (adata : TrendRecord) (trend : Option Direction)
    (s : InstState) (alerts : List Alert) (s2 : InstState)
    (alerts2 : List Alert)
    (h : applyTimeframe cfg name now (some (adir, adata)) adata.max_timeframe
      trend s alerts = some (s2, alerts2)) :
    s2 = s ∨ s2 = setRecord s adir none := by
  cases trend with
  | none =>
    simp only [applyTimeframe, Option.some.injEq, Prod.mk.injEq] at h
    exact Or.inl h.1.symm
  | some t =>
    cases hci : listIndex cfg.timeframes adata.max_timeframe with
    | none =>
      simp only [applyTimeframe, hci] at h
      exact Option.noConfusion h
    | some ci =>
      simp only [applyTimeframe, hci] at h
      rw [if_neg (Nat.lt_irrefl ci)] at h
      rw [if_pos trivial] at h
      cases hgr : getRecord s adir with
      | none =>
        rw [hgr] at h
        exact Option.noConfusion h
      | some rl =>
        simp only [hgr, Option.some.injEq, Prod.mk.injEq] at h
        exact Or.inr h.1.symm

/-- If a record survives an instrument step that either left the state alone
or deleted one key, its timeframe index is unchanged. -/
lemma mono_unchanged_or_deleted {cfg : Config} {s s2 : InstState}
    {adir d : Direction} {r r2 : TrendRecord} {i i2 : ℕ}
    (hcase : s2 = s ∨ s2 = setRecord s adir none)
    (hd : getRecord s d = some r) (hd2 : getRecord s2 d = some r2)
    (hi : listIndex cfg.timeframes r.max_timeframe = some i)
    (hi2 : listIndex cfg.timeframes r2.max_timeframe = some i2) :
    i ≤ i2 := by
  rcases hcase with rfl | rfl
  · rw [hd] at hd2
    obtain rfl := (Option.some.injEq _ _).mp hd2
    exact le_of_eq (listIndex_inj hi hi2)
  · by_cases hda : adir = d
    · subst hda
      rw [getRecord_setRecord_same] at hd2
      exact Option.noConfusion hd2
    · rw [getRecord_setRecord_other _ _ hda] at hd2
      rw [hd] at hd2
      obtain rfl := (Option.some.injEq _ _).mp hd2
      exact le_of_eq (listIndex_inj hi hi2)

/-- The apply loop over the single list `[max_timeframe]` either leaves the
state unchanged or deletes the snapshot key. -/
lemma runTimeframes_single_at_max (cfg : Config) (name : String) (now : ℤ)
    (adir : Direction) (adata : TrendRecord)
    (detect : String → Option Direction) (s : InstState)
    (alerts : List Alert) (s2 : InstState) (alerts2 : List Alert)
    (h : runTimeframes cfg name now (some (adir, adata)) detect
      [adata.max_timeframe] s alerts = some (s2, alerts2)) :
    s2 = s ∨ s2 = setRecord s adir none := by
  simp only [runTimeframes] at h
  cases happ : applyTimeframe cfg name now (some (adir, adata))
      adata.max_timeframe (detect adata.max_timeframe) s alerts with
  | none => rw [happ] at h; exact Option.noConfusion h
  | some out =>
    obtain ⟨s1, a1⟩ := out
    simp only [happ, Option.some.injEq, Prod.mk.injEq] at h
    obtain ⟨h1, -⟩ := h
    subst h1
    exact applyTimeframe_at_max cfg name now adir adata _ s alerts s1 a1 happ

/-- Monotonicity of one commodity-loop iteration: if a record for key `d`
exists before and after the step, its position in the configured timeframe
sequence does not decrease. -/
lemma scanInstrument_mono (cfg : Config) (detect : String → Option Direction)
    (now : ℤ) (name : String) (s s2 : InstState) (alerts2 : List Alert)
    (tfs : List String) (d : Direction) (r r2 : TrendRecord) (i i2 : ℕ)
    (h : scanInstrument cfg detect now name s = some (s2, alerts2, tfs))
    (hd : getRecord s d = some r) (hd2 : getRecord s2 d = some r2)
    (hi : listIndex cfg.timeframes r.max_timeframe = some i)
    (hi2 : listIndex cfg.timeframes r2.max_timeframe = some i2) :
    i ≤ i2 := by
  cases hact : activeTrend s with
  | none =>
    obtain ⟨hb, he⟩ := activeTrend_none hact
    cases d with
    | bullish =>
      simp only [getRecord] at hd
      rw [hb] at hd
      exact Option.noConfusion hd
    | bearish =>
      simp only [getRecord] at hd
      rw [he] at hd
      exact Option.noConfusion hd
  | some pair =>
    obtain ⟨adir, adata⟩ := pair
    have hgadir : getRecord s adir = some adata := getRecord_activeTrend hact
    unfold scanInstrument at h
    cases htts : timeframesToScan cfg now s with
    | none =>
      simp only [htts] at h
      exact Option.noConfusion h
    | some l =>
      simp only [htts] at h
      cases hrun : runTimeframes cfg name now (activeTrend s) detect l s []
          with
      | none =>
        simp only [hrun] at h
        exact Option.noConfusion h
      | some out =>
        obtain ⟨s2x, alertsx⟩ := out
        simp only [hrun, Option.some.injEq, Prod.mk.injEq] at h
        obtain ⟨h1, -, -⟩ := h
        subst h1
        rw [hact] at hrun
        unfold timeframesToScan at htts
        simp only [hact] at htts
        cases hci : listIndex cfg.timeframes adata.max_timeframe with
        | none => rw [hci] at htts; exact Option.noConfusion htts
        | some ci =>
          simp only [hci] at htts
          by_cases hlt : ci < cfg.timeframes.length - 1
          · rw [if_pos hlt] at htts
            by_cases hw : now - adata.first_detected ≥
                (cfg.waitMatrix adata.max_timeframe
                  (cfg.timeframes.getD (ci + 1) "")).getD 10
            · rw [if_pos hw] at htts
              obtain rfl := (Option.some.injEq _ _).mp htts
              -- two scanned timeframes: step at T, then step at N
              simp only [runTimeframes] at hrun
              cases happ1 : applyTimeframe cfg name now (some (adir, adata))
                  adata.max_timeframe (detect adata.max_timeframe) s [] with
              | none => rw [happ1] at hrun; exact Option.noConfusion hrun
              | some out1 =>
                obtain ⟨s1, a1⟩ := out1
                simp only [happ1] at hrun
                have hstep1 : s1 = s ∨ s1 = setRecord s adir none :=
                  applyTimeframe_at_max cfg name now adir adata _ s [] s1 a1
                    happ1
                cases happ2 : applyTimeframe cfg name now (some (adir, adata))
                    (cfg.timeframes.getD (ci + 1) "")
                    (detect (cfg.timeframes.getD (ci + 1) "")) s1 a1 with
                | none => rw [happ2] at hrun; exact Option.noConfusion hrun
                | some out2 =>
                  obtain ⟨s2y, a2⟩ := out2
                  simp only [happ2, Option.some.injEq, Prod.mk.injEq] at hrun
                  obtain ⟨h2eq, -⟩ := hrun
                  subst h2eq
                  cases htr : detect (cfg.timeframes.getD (ci + 1) "") with
                  | none =>
                    rw [htr] at happ2
                    simp only [applyTimeframe, Option.some.injEq,
                      Prod.mk.injEq] at happ2
                    obtain ⟨hset, -⟩ := happ2
                    subst hset
                    exact mono_unchanged_or_deleted hstep1 hd hd2 hi hi2
                  | some t =>
                    rw [htr] at happ2
                    cases hN : listIndex cfg.timeframes
                        (cfg.timeframes.getD (ci + 1) "") with
                    | none =>
                      simp only [applyTimeframe, hci, hN] at happ2
                      exact Option.noConfusion happ2
                    | some ni =>
                      simp only [applyTimeframe, hci, hN] at happ2
                      by_cases hcn : ci < ni
                      · rw [if_pos hcn] at happ2
                        cases hgr1 : getRecord s1 adir with
                        | none =>
                          rw [hgr1] at happ2
                          exact Option.noConfusion happ2
                        | some rl =>
                          simp only [hgr1, Option.some.injEq,
                            Prod.mk.injEq] at happ2
                          obtain ⟨hset, -⟩ := happ2
                          subst hset
                          rcases hstep1 with rfl | rfl
                          · by_cases hda : adir = d
                            · subst hda
                              rw [getRecord_setRecord_same] at hd2
                              obtain rfl := (Option.some.injEq _ _).mp hd2
                              have hr : r = adata := by
                                rw [hgadir] at hd
                                exact ((Option.some.injEq _ _).mp hd).symm
                              subst hr
                              have hieq : i = ci := listIndex_inj hi hci
                              have hi2b : listIndex cfg.timeframes
                                  (cfg.timeframes.getD (ci + 1) "") =
                                  some i2 := hi2
                              have hi2eq : i2 = ni := listIndex_inj hi2b hN
                              omega
                            · rw [getRecord_setRecord_other _ _ hda] at hd2
                              rw [hd] at hd2
                              obtain rfl := (Option.some.injEq _ _).mp hd2
                              exact le_of_eq (listIndex_inj hi hi2)
                          · rw [getRecord_setRecord_same] at hgr1
                            exact Option.noConfusion hgr1
                      · rw [if_neg hcn] at happ2
                        by_cases heq : cfg.timeframes.getD (ci + 1) "" =
                            adata.max_timeframe
                        · rw [if_pos heq] at happ2
                          cases hgr1 : getRecord s1 adir with
                          | none =>
                            rw [hgr1] at happ2
                            exact Option.noConfusion happ2
                          | some rl =>
                            simp only [hgr1, Option.some.injEq,
                              Prod.mk.injEq] at happ2
                            obtain ⟨hset, -⟩ := happ2
                            subst hset
                            rcases hstep1 with rfl | rfl
                            · exact mono_unchanged_or_deleted (Or.inr rfl)
                                hd hd2 hi hi2
                            · rw [getRecord_setRecord_same] at hgr1
                              exact Option.noConfusion hgr1
                        · rw [if_neg heq] at happ2
                          simp only [Option.some.injEq, Prod.mk.injEq]
                            at happ2
                          obtain ⟨hset, -⟩ := happ2
                          subst hset
                          exact mono_unchanged_or_deleted hstep1 hd hd2 hi hi2
            · rw [if_neg hw] at htts
              obtain rfl := (Option.some.injEq _ _).mp htts
              exact mono_unchanged_or_deleted
                (runTimeframes_single_at_max cfg name now adir adata detect s
                  [] s2x alertsx hrun) hd hd2 hi hi2
          · rw [if_neg hlt] at htts
            obtain rfl := (Option.some.injEq _ _).mp htts
            exact mono_unchanged_or_deleted
              (runTimeframes_single_at_max cfg name now adir adata detect s
                [] s2x alertsx hrun) hd hd2 hi hi2

/-- Instruments not named in the remaining commodity list keep their store
slice through the rest of the loop. -/
lemma scanCommodityList_untouched (cfg : Config)
    (detect : String → String → Option Direction) (now : ℤ) :
    ∀ (cs : List Commodity) (st : Store) (alerts : List Alert)
      (fetches : List (String × String))
      (out : List Alert × List (String × String) × Store),
    scanCommodityList cfg detect now cs st alerts fetches = some out →
    ∀ sym, sym ∉ cs.map Commodity.symbol → out.2.2 sym = st sym
  | [], st, alerts, fetches, out, h, sym, _ => by
    simp only [scanCommodityList, Option.some.injEq] at h
    subst h
    rfl
  | c :: rest, st, alerts, fetches, out, h, sym, hsym => by
    simp only [scanCommodityList] at h
    cases hsi : scanInstrument cfg (detect c.symbol) now c.name
        (st c.symbol) with
    | none => rw [hsi] at h; exact Option.noConfusion h
    | some trip =>
      obtain ⟨s2, na, tfsc⟩ := trip
      simp only [hsi] at h
      have hne : sym ≠ c.symbol := by
        intro hcon
        exact hsym (by simp [hcon])
      have hrest : sym ∉ rest.map Commodity.symbol := by
        intro hcon
        exact hsym (by simp [hcon])
      have hkeep := scanCommodityList_untouched cfg detect now rest
        (updateStore st c.symbol s2) (alerts ++ na)
        (fetches ++ tfsc.map (fun tf => (c.symbol, tf))) out h sym hrest
      rw [hkeep]
      unfold updateStore
      rw [if_neg hne]

/-- Monotonicity of the whole commodity loop, assuming the configured
symbols are distinct (so every instrument is processed at most once per
cycle). -/
lemma scanCommodityList_mono (cfg : Config)
    (detect : String → String → Option Direction) (now : ℤ) :
    ∀ (cs : List Commodity) (st : Store) (alerts : List Alert)
      (fetches : List (String × String))
      (out : List Alert × List (String × String) × Store),
    (cs.map Commodity.symbol).Nodup →
    scanCommodityList cfg detect now cs st alerts fetches = some out →
    ∀ (sym : String) (d : Direction) (r r2 : TrendRecord) (i i2 : ℕ),
    lookupStore st sym d = some r → lookupStore out.2.2 sym d = some r2 →
    listIndex cfg.timeframes r.max_timeframe = some i →
    listIndex cfg.timeframes r2.max_timeframe = some i2 → i ≤ i2
  | [], st, alerts, fetches, out, _, h, sym, d, r, r2, i, i2, hd, hd2, hi,
      hi2 => by
    simp only [scanCommodityList, Option.some.injEq] at h
    subst h
    rw [hd] at hd2
    obtain rfl := (Option.some.injEq _ _).mp hd2
    exact le_of_eq (listIndex_inj hi hi2)
  | c :: rest, st, alerts, fetches, out, hnd, h, sym, d, r, r2, i, i2, hd,
      hd2, hi, hi2 => by
    simp only [scanCommodityList] at h
    rw [List.map_cons] at hnd
    obtain ⟨hhead, hrestnd⟩ := List.nodup_cons.mp hnd
    cases hsi : scanInstrument cfg (detect c.symbol) now c.name
        (st c.symbol) with
    | none => rw [hsi] at h; exact Option.noConfusion h
    | some trip =>
      obtain ⟨s2c, na, tfsc⟩ := trip
      simp only [hsi] at h
      by_cases hsym : sym = c.symbol
      · subst hsym
        have hslice : out.2.2 c.symbol = s2c := by
          have hkeep := scanCommodityList_untouched cfg detect now rest
            (updateStore st c.symbol s2c) (alerts ++ na)
            (fetches ++ tfsc.map (fun tf => (c.symbol, tf))) out h c.symbol
            hhead
          rw [hkeep]
          unfold updateStore
          rw [if_pos rfl]
        have hd2b : getRecord s2c d = some r2 := by
          have hrw : lookupStore out.2.2 c.symbol d =
              getRecord (out.2.2 c.symbol) d := rfl
          rw [hrw, hslice] at hd2
          exact hd2
        exact scanInstrument_mono cfg (detect c.symbol) now c.name
          (st c.symbol) s2c na tfsc d r r2 i i2 hsi hd hd2b hi hi2
      · have hlook : lookupStore (updateStore st c.symbol s2c) sym d =
            some r := by
          unfold lookupStore updateStore
          rw [if_neg hsym]
          exact hd
        exact scanCommodityList_mono cfg detect now rest
          (updateStore st c.symbol s2c) (alerts ++ na)
          (fetches ++ tfsc.map (fun tf => (c.symbol, tf))) out hrestnd h sym
          d r r2 i i2 hlook hd2 hi hi2

/-- Monotonicity of one scheduler iteration. -/
lemma runCycle_mono (cfg : Config) (inp : CycleInput) (st : Store)
    (hnd : (cfg.commodities.map Commodity.symbol).Nodup)
    (sym : String) (d : Direction) (r r2 : TrendRecord) (i i2 : ℕ)
    (hd : lookupStore st sym d = some r)
    (hd2 : lookupStore (runCycle cfg inp st) sym d = some r2)
    (hi : listIndex cfg.timeframes r.max_timeframe = some i)
    (hi2 : listIndex cfg.timeframes r2.max_timeframe = some i2) :
    i ≤ i2 := by
  unfold runCycle scan_commodities at hd2
  cases hA : inp.is_active with
  | false =>
    rw [hA] at hd2
    simp only [Bool.false_eq_true, if_false] at hd2
    rw [hd] at hd2
    obtain rfl := (Option.some.injEq _ _).mp hd2
    exact le_of_eq (listIndex_inj hi hi2)
  | true =>
    rw [hA] at hd2
    simp only [if_true] at hd2
    cases hsc : scanCommodityList cfg inp.detect inp.now cfg.commodities
        st [] [] with
    | none =>
      simp only [hsc] at hd2
      rw [hd] at hd2
      obtain rfl := (Option.some.injEq _ _).mp hd2
      exact le_of_eq (listIndex_inj hi hi2)
    | some out =>
      simp only [hsc] at hd2
      exact scanCommodityList_mono cfg inp.detect inp.now cfg.commodities
        st [] [] out hnd hsc sym d r r2 i i2 hd hd2 hi hi2

/-! ## Claim theorems -/

/-- C7: for every close-price series with fewer than `slow_period + 1`
elements, the detector returns `none` (a normal result, not an error). -/
theorem c7_short_series_returns_none (closes : List ℚ) (ema_fast ema_slow : ℕ)
    (h : closes.length < ema_slow + 1) :
    check_ema_crossover closes ema_fast ema_slow = none := by
  unfold check_ema_crossover
  rw [if_pos h]

/-- Witness for C7 at the empty series with the default periods 9/21. -/
theorem c7_short_series_returns_none_witness :
    ([] : List ℚ).length < 21 + 1 ∧ check_ema_crossover [] 9 21 = none :=
  ⟨by decide, c7_short_series_returns_none [] 9 21 (by decide)⟩

/-- C6: on a series of sufficient length the detector returns `bullish` iff
`prev_fast <= prev_slow` and `curr_fast > curr_slow`, `bearish` iff
`prev_fast >= prev_slow` and `curr_fast < curr_slow`, `none` otherwise, and
the two conditions are mutually exclusive (ties cannot satisfy both). -/
theorem c6_crossover_classification (closes : List ℚ) (f s : ℕ)
    (h1 : s + 1 ≤ closes.length) (h2 : 2 ≤ closes.length) :
    (check_ema_crossover closes f s = some Direction.bullish ↔
      emaPrev f closes ≤ emaPrev s closes ∧
      emaCurr s closes < emaCurr f closes) ∧
    (check_ema_crossover closes f s = some Direction.bearish ↔
      emaPrev s closes ≤ emaPrev f closes ∧
      emaCurr f closes < emaCurr s closes) ∧
    (check_ema_crossover closes f s = none ↔
      ¬(emaPrev f closes ≤ emaPrev s closes ∧
        emaCurr s closes < emaCurr f closes) ∧
      ¬(emaPrev s closes ≤ emaPrev f closes ∧
        emaCurr f closes < emaCurr s closes)) ∧
    ¬((emaPrev f closes ≤ emaPrev s closes ∧
       emaCurr s closes < emaCurr f closes) ∧
      (emaPrev s closes ≤ emaPrev f closes ∧
       emaCurr f closes < emaCurr s closes)) := by
  have hn1 : ¬ closes.length < s + 1 := not_lt.mpr h1
  have hn2 : ¬ closes.length < 2 := not_lt.mpr h2
  have hexcl : ¬((emaPrev f closes ≤ emaPrev s closes ∧
       emaCurr s closes < emaCurr f closes) ∧
      (emaPrev s closes ≤ emaPrev f closes ∧
       emaCurr f closes < emaCurr s closes)) :=
    fun hc => absurd hc.2.2 (not_lt.mpr (le_of_lt hc.1.2))
  unfold check_ema_crossover
  rw [if_neg hn1, if_neg hn2]
  by_cases hb : emaPrev f closes ≤ emaPrev s closes ∧
      emaCurr s closes < emaCurr f closes
  · rw [if_pos hb]
    refine ⟨by simp [hb], ?_, by simp [hb], hexcl⟩
    simp only [Option.some.injEq]
    constructor
    · intro h; cases h
    · intro hc; exact absurd ⟨hb, hc⟩ hexcl
  · rw [if_neg hb]
    by_cases hr : emaPrev s closes ≤ emaPrev f closes ∧
        emaCurr f closes < emaCurr s closes
    · rw [if_pos hr]
      refine ⟨?_, by simp [hr], by simp [hr], hexcl⟩
      simp only [Option.some.injEq]
      constructor
      · intro h; cases h
      · intro hc; exact absurd hc hb
    · rw [if_neg hr]
      refine ⟨by simp [hb], by simp [hr], by simp [hb, hr], hexcl⟩

/-- Witness for C6 on the series `[1, 1, 4]` with spans 1 and 2
(a bullish crossover on the last bar). -/
theorem c6_crossover_classification_witness :
    2 + 1 ≤ ([1, 1, 4] : List ℚ).length ∧
    check_ema_crossover [1, 1, 4] 1 2 = some Direction.bullish :=
  ⟨by decide,
   ((c6_crossover_classification [1, 1, 4] 1 2 (by decide) (by decide)).1).mpr
     (by norm_num [emaPrev, emaCurr, ewm, ewmFrom])⟩

/-- C8: with the market closed, `scan_commodities` returns an empty alert
sequence and an empty fetch log, and the persisted store is exactly the input
store. -/
theorem c8_closed_market_noop (cfg : Config)
    (detect : String → String → Option Direction) (now : ℤ) (st : Store) :
    scan_commodities cfg detect now false st = some ([], [], st) := rfl

/-- C4 counterexample: with a configured timeframe sequence starting at
`15m`, an instrument with no record is still probed at the hard-coded `5m`,
not at the configured lowest timeframe. -/
theorem c4_counterexample_hardcoded_5m :
    timeframesToScan seqCfg 0 ⟨none, none⟩ = some ["5m"] ∧
    seqCfg.timeframes.headD "" = "15m" ∧
    timeframesToScan seqCfg 0 ⟨none, none⟩ ≠
      some [seqCfg.timeframes.headD ""] := by decide

/-- C4 (amended): with no existing record in either direction, the decision
step always selects exactly the literal timeframe `5m` — regardless of the
configured sequence — and `5m` happens to be the lowest timeframe of the
built-in default configuration. -/
theorem c4_no_record_probes_5m_only :
    (∀ (cfg : Config) (now : ℤ) (s : InstState), activeTrend s = none →
      timeframesToScan cfg now s = some ["5m"]) ∧
    defaultConfig.timeframes.headD "" = "5m" := by
  refine ⟨fun cfg now s h => ?_, rfl⟩
  simp only [timeframesToScan, h]

/-- Witness for C4 (amended) at the empty instrument state. -/
theorem c4_no_record_probes_5m_only_witness :
    activeTrend ⟨none, none⟩ = none ∧
    timeframesToScan defaultConfig 0 ⟨none, none⟩ = some ["5m"] :=
  ⟨rfl, c4_no_record_probes_5m_only.1 defaultConfig 0 ⟨none, none⟩ rfl⟩

/-- C5: for an existing record at `max_timeframe = T` that is not the top of
the ladder, with `N` the next configured timeframe, the decision step selects
`[T, N]` when the minutes elapsed since `first_detected` reach
`wait_matrix[T][N]` (defaulting to 10 when unconfigured), and only `[T]` when
they fall short. -/
theorem c5_escalation_timing (cfg : Config) (now : ℤ) (s : InstState)
    (d : Direction) (r : TrendRecord) (i : ℕ)
    (hact : activeTrend s = some (d, r))
    (hidx : listIndex cfg.timeframes r.max_timeframe = some i)
    (hlt : i < cfg.timeframes.length - 1) :
    (now - r.first_detected ≥
        (cfg.waitMatrix r.max_timeframe (cfg.timeframes.getD (i + 1) "")).getD 10 →
      timeframesToScan cfg now s =
        some [r.max_timeframe, cfg.timeframes.getD (i + 1) ""]) ∧
    (now - r.first_detected <
        (cfg.waitMatrix r.max_timeframe (cfg.timeframes.getD (i + 1) "")).getD 10 →
      timeframesToScan cfg now s = some [r.max_timeframe]) :=
  ⟨fun hw => timeframesToScan_both hact hidx hlt hw,
   fun hw => timeframesToScan_current hact hidx hlt hw⟩

/-- Witness for C5: the spec timing scenario with `wait_matrix[15m][30m] = 15`
minutes — at minute 14 only `15m` is examined, at minute 16 both `15m` and
`30m` are. -/
theorem c5_escalation_timing_witness :
    timeframesToScan defaultConfig 14 s15 = some ["15m"] ∧
    timeframesToScan defaultConfig 16 s15 = some ["15m", "30m"] :=
  ⟨(c5_escalation_timing defaultConfig 14 s15 Direction.bullish rec15 2
      (by decide) (by decide) (by decide)).2 (by decide),
   (c5_escalation_timing defaultConfig 16 s15 Direction.bullish rec15 2
      (by decide) (by decide) (by decide)).1 (by decide)⟩

/-- C1, failing input: a bullish record at `max_timeframe = "15m"`,
re-examination at `15m` (the only scanned timeframe, the escalation wait not
having elapsed) returns `none`, and no escalation occurs — yet the record is
NOT deleted and NO faded alert is emitted; the cycle is a complete no-op.
The `else` branch at line 295 of the source is nested under `if trend:`
(line 263), so a `none` detection never reaches the fade logic, contradicting
the fade rule the code itself documents in its comments. -/
theorem c1_none_detection_leaves_record :
    scanInstrument defaultConfig (fun _ => none) 5 "Gold" s15 =
      some (s15, [], ["15m"]) := by decide

/-- C2, failing input: the same-direction re-confirmation at the current
`max_timeframe` (the only detection result) is NOT a no-op: on its first
application it deletes the record and emits a `faded` alert, because the
misplaced `else` at line 295 routes a detected trend at an equal-or-lower
timeframe into the fade branch. -/
theorem c2_reconfirmation_is_not_noop :
    scanInstrument defaultConfig
      (fun tf => if tf = "15m" then some Direction.bullish else none)
      5 "Gold" s15 =
      some (⟨none, none⟩, [Alert.faded "Gold" Direction.bullish "15m"],
            ["15m"]) := by decide

/-- C3 counterexample: a bullish record at `5m` is escalated to `10m` (state
updated, one `progressing` alert) by a BEARISH detection at `10m` — the
opposite-direction detection at the next timeframe does escalate the record,
because lines 279-293 compare timeframe indices only and never compare the
detected direction with the record direction. -/
theorem c3_counterexample_opposite_direction_escalates :
    scanInstrument defaultConfig
      (fun tf => if tf = "10m" then some Direction.bearish else none)
      100 "Gold" ⟨some rec5, none⟩ =
      some (⟨some ⟨0, "10m", 1, 100⟩, none⟩,
            [Alert.progressing "Gold" Direction.bearish "10m"],
            ["5m", "10m"]) ∧
    rec5.max_timeframe ≠ "10m" := by decide

/-- C3 (amended): when the decision step selects `[T, N]` and re-examination
at `T` returns `none`, the record is escalated (max_timeframe set to `N`,
last_updated set to `now`, one `progressing` event) exactly when the
detection result at `N` is non-`none` — the direction of that detection is
irrelevant, so an opposite-direction detection at `N` escalates too. -/
theorem c3_escalation_ignores_direction (cfg : Config)
    (detect : String → Option Direction) (now : ℤ) (name : String)
    (s : InstState) (adir : Direction) (r : TrendRecord) (i ni : ℕ)
    (hact : activeTrend s = some (adir, r))
    (hidx : listIndex cfg.timeframes r.max_timeframe = some i)
    (hlt : i < cfg.timeframes.length - 1)
    (hN : listIndex cfg.timeframes (cfg.timeframes.getD (i + 1) "") = some ni)
    (hni : i < ni)
    (hw : now - r.first_detected ≥
      (cfg.waitMatrix r.max_timeframe (cfg.timeframes.getD (i + 1) "")).getD 10)
    (hT : detect r.max_timeframe = none) :
    (∀ dN, detect (cfg.timeframes.getD (i + 1) "") = some dN →
      scanInstrument cfg detect now name s =
        some (setRecord s adir
                (some { r with max_timeframe := cfg.timeframes.getD (i + 1) "",
                               last_updated := now }),
              [Alert.progressing name dN (cfg.timeframes.getD (i + 1) "")],
              [r.max_timeframe, cfg.timeframes.getD (i + 1) ""])) ∧
    (detect (cfg.timeframes.getD (i + 1) "") = none →
      scanInstrument cfg detect now name s =
        some (s, [], [r.max_timeframe, cfg.timeframes.getD (i + 1) ""])) := by
  have htfs := timeframesToScan_both hact hidx hlt hw
  have hrec : getRecord s adir = some r := getRecord_activeTrend hact
  constructor
  · intro dN hdN
    simp only [scanInstrument, htfs, runTimeframes, applyTimeframe, hT, hdN,
      hact, hidx, hN, hrec]
    rw [if_pos hni]
    simp
  · intro hdN
    simp only [scanInstrument, htfs, runTimeframes, applyTimeframe, hT, hdN]

/-- Witness for C3 (amended): the counterexample scenario, obtained through
the amended theorem. -/
theorem c3_escalation_ignores_direction_witness :
    scanInstrument defaultConfig
      (fun tf => if tf = "10m" then some Direction.bearish else none)
      100 "Gold" ⟨some rec5, none⟩ =
      some (setRecord ⟨some rec5, none⟩ Direction.bullish
              (some { rec5 with max_timeframe := defaultConfig.timeframes.getD 1 "",
                                last_updated := 100 }),
            [Alert.progressing "Gold" Direction.bearish
              (defaultConfig.timeframes.getD 1 "")],
            [rec5.max_timeframe, defaultConfig.timeframes.getD 1 ""]) :=
  (c3_escalation_ignores_direction defaultConfig
      (fun tf => if tf = "10m" then some Direction.bearish else none)
      100 "Gold" ⟨some rec5, none⟩ Direction.bullish rec5 0 1
      (by decide) (by decide) (by decide) (by decide) (by decide) (by decide)
      (by decide)).1 Direction.bearish (by decide)


/-- The fixture store `w9store` satisfies the timeframe-membership
invariant for the default configuration. -/
lemma w9store_inv : StoreTFInv defaultConfig w9store := by
  intro sym d r hr
  unfold lookupStore w9store updateStore at hr
  by_cases hs : sym = "GC=F"
  · rw [if_pos hs] at hr
    cases d with
    | bullish =>
      simp only [getRecord, s15] at hr
      obtain rfl := (Option.some.injEq _ _).mp hr
      decide
    | bearish =>
      simp only [getRecord, s15] at hr
      exact Option.noConfusion hr
  · rw [if_neg hs] at hr
    cases d with
    | bullish =>
      simp only [getRecord, emptyStore] at hr
      exact Option.noConfusion hr
    | bearish =>
      simp only [getRecord, emptyStore] at hr
      exact Option.noConfusion hr

/-- C9 counterexample: under the configured timeframe sequence
`["15m","30m","1h"]` (which does not contain `5m`), a single cycle from the
empty store persists a record whose `max_timeframe` is the hard-coded probe
timeframe `5m` — NOT an element of the configured sequence, refuting the
claimed membership invariant for arbitrary configurations (the same line-231
hard-coded probe behind the C4 correction, stored by line 274). -/
theorem c9_counterexample_probe_outside_sequence :
    lookupStore (runTrace seqCfg [probeInp] emptyStore) "GC=F"
      Direction.bullish = some ⟨0, "5m", 1, 0⟩ ∧
    (⟨0, "5m", 1, 0⟩ : TrendRecord).max_timeframe ∉ seqCfg.timeframes := by
  decide

/-- C9 (amended): provided the configured timeframe sequence contains the
hard-coded `5m` probe timeframe and the configured commodity symbols are
distinct (both true of the built-in default configuration), then starting
from any store whose records all carry a `max_timeframe` from the configured
sequence (e.g. the empty store), (1) every store reachable by any sequence
of scheduler iterations still satisfies that membership invariant, and (2)
whenever a record for a given instrument and direction exists both before
and after one further iteration, its position in the configured timeframe
sequence never decreases. -/
theorem c9_max_timeframe_invariant_and_monotone (cfg : Config) (st : Store)
    (h5 : "5m" ∈ cfg.timeframes)
    (hnd : (cfg.commodities.map Commodity.symbol).Nodup)
    (h0 : StoreTFInv cfg st) :
    (∀ inps : List CycleInput, StoreTFInv cfg (runTrace cfg inps st)) ∧
    (∀ (pre : List CycleInput) (inp : CycleInput) (sym : String)
       (d : Direction) (r r2 : TrendRecord) (i i2 : ℕ),
       lookupStore (runTrace cfg pre st) sym d = some r →
       lookupStore (runCycle cfg inp (runTrace cfg pre st)) sym d = some r2 →
       listIndex cfg.timeframes r.max_timeframe = some i →
       listIndex cfg.timeframes r2.max_timeframe = some i2 →
       i ≤ i2) := by
  constructor
  · intro inps
    exact runTrace_preserves (fun x => x.max_timeframe ∈ cfg.timeframes) cfg
      (fun now tf htf => by
        rcases htf with rfl | hm
        · exact h5
        · exact hm)
      (fun now tf htf r _ => by
        rcases htf with rfl | hm
        · exact h5
        · exact hm)
      inps st h0
  · intro pre inp sym d r r2 i i2 hd hd2 hi hi2
    exact runCycle_mono cfg inp (runTrace cfg pre st) hnd sym d r r2 i i2
      hd hd2 hi hi2

/-- Witness for C9: the gold record at `15m` (index 2) escalates to `30m`
(index 3) in one cycle; the theorem yields its index monotonicity, and the
membership invariant is supplied and checked concretely. -/
theorem c9_max_timeframe_invariant_and_monotone_witness :
    StoreTFInv defaultConfig w9store ∧
    lookupStore (runCycle defaultConfig w9inp (runTrace defaultConfig []
      w9store)) "GC=F" Direction.bullish = some ⟨0, "30m", 1, 16⟩ ∧
    (2 : ℕ) ≤ 3 :=
  ⟨w9store_inv, by decide,
   (c9_max_timeframe_invariant_and_monotone defaultConfig w9store
      (by decide) (by decide) w9store_inv).2 [] w9inp "GC=F"
      Direction.bullish rec15 ⟨0, "30m", 1, 16⟩ 2 3 (by decide) (by decide)
      (by decide) (by decide)⟩

/-- C10: in every state reachable by the scanner from the empty store, every
stored trend record has `trend_strength` exactly 1 — creation writes 1 and
neither escalation nor any other transition ever modifies the field. -/
theorem c10_trend_strength_always_one (cfg : Config)
    (inps : List CycleInput) (sym : String) (d : Direction) (r : TrendRecord)
    (h : lookupStore (runTrace cfg inps emptyStore) sym d = some r) :
    r.trend_strength = 1 :=
  runTrace_preserves (fun x => x.trend_strength = 1) cfg
    (fun _ _ _ => rfl) (fun _ _ _ _ hr => hr) inps emptyStore
    (fun _ d2 r2 hr => by
      cases d2 with
      | bullish =>
        simp only [lookupStore, emptyStore, getRecord] at hr
        exact Option.noConfusion hr
      | bearish =>
        simp only [lookupStore, emptyStore, getRecord] at hr
        exact Option.noConfusion hr)
    sym d r h

/-- Witness for C10: one active cycle creates the gold record with
`trend_strength = 1`; the theorem derives that field value from the
reachable-state lookup. -/
theorem c10_trend_strength_always_one_witness :
    lookupStore (runTrace defaultConfig [w10inp] emptyStore) "GC=F"
      Direction.bullish = some ⟨7, "5m", 1, 7⟩ ∧
    (⟨7, "5m", 1, 7⟩ : TrendRecord).trend_strength = 1 :=
  ⟨by decide,
   c10_trend_strength_always_one defaultConfig [w10inp] "GC=F"
     Direction.bullish ⟨7, "5m", 1, 7⟩ (by decide)⟩

end CommodityScanner
